import Mathlib

/-
Verification of the profile resolution and interactive selection engine of
aws-sso-navigator (a Rust CLI).  Strings from the source are modelled as
`List Char`; Rust's `str::split(sep)`, `[T]::join`, `str::trim` are embedded
as executable Lean functions below, and each Rust function of the repository
is translated into a Lean definition of the same name.
-/

/-- Embeds Rust `str::split(sep)` for a one-character separator: splits a
character list at every occurrence of `sep`.  As in Rust, the empty string
yields one empty component, and leading/trailing/adjacent separators yield
empty components. -/
def splitOnChar (sep : Char) : List Char → List (List Char)
  | [] => [[]]
  | c :: rest =>
    match splitOnChar sep rest with
    | [] => [[]]
    | h :: t => if c = sep then [] :: h :: t else (c :: h) :: t

/-- Embeds Rust `[&str]::join(sep)` for a one-character separator. -/
def joinWithChar (sep : Char) : List (List Char) → List Char
  | [] => []
  | [x] => x
  | x :: y :: rest => x ++ sep :: joinWithChar sep (y :: rest)

/-- Embeds Rust `char::is_whitespace`, the predicate `str::trim` strips: the
Unicode White_Space property, i.e. tab through carriage return
(U+0009-U+000D), space, next line (U+0085), no-break space (U+00A0), ogham
space mark (U+1680), en quad through hair space (U+2000-U+200A), line and
paragraph separators (U+2028, U+2029), narrow no-break space (U+202F),
medium mathematical space (U+205F) and ideographic space (U+3000). -/
def isWsChar (c : Char) : Bool :=
  (0x09 ≤ c.val && c.val ≤ 0x0D) || c.val = 0x20 || c.val = 0x85 || c.val = 0xA0 ||
  c.val = 0x1680 || (0x2000 ≤ c.val && c.val ≤ 0x200A) || c.val = 0x2028 ||
  c.val = 0x2029 || c.val = 0x202F || c.val = 0x205F || c.val = 0x3000

/-- Embeds Rust `str::trim`: removes leading and trailing whitespace. -/
def trimChars (l : List Char) : List Char :=
  ((l.dropWhile isWsChar).reverse.dropWhile isWsChar).reverse

/-- The `Profile` struct of `src/main.rs` (client/account/role/name). -/
structure Profile where
  client : List Char
  account : List Char
  role : List Char
  name : List Char
deriving DecidableEq, Repr

/-- Embeds the per-section-name body of `load_profiles` in `src/main.rs`
(lines 28-39): split the captured profile name on the separator; if there are
at least 3 components build the Profile from components 0, 1 and the re-joined
remainder, otherwise produce nothing. -/
def parseProfileName (profileName : List Char) : Option Profile :=
  let parts := splitOnChar '-' profileName
  if parts.length ≥ 3 then
    some { client := parts.getD 0 [], account := parts.getD 1 [],
           role := joinWithChar '-' (parts.drop 2), name := profileName }
  else
    none

/-- Embeds `load_profiles` of `src/main.rs`, applied to the list of section
names captured by the `^\[profile (.+)\]` regex. -/
def load_profiles_main (sectionNames : List (List Char)) : List Profile :=
  sectionNames.filterMap parseProfileName

theorem splitOnChar_ne_nil (sep : Char) (l : List Char) : splitOnChar sep l ≠ [] := by
  cases l with
  | nil => simp [splitOnChar]
  | cons c rest =>
    unfold splitOnChar
    cases h : splitOnChar sep rest with
    | nil => simp
    | cons h t => dsimp; split <;> simp

/-- Splitting and then re-joining on the same separator recovers the input. -/
theorem joinWithChar_splitOnChar (sep : Char) (l : List Char) :
    joinWithChar sep (splitOnChar sep l) = l := by
  induction l with
  | nil => simp [splitOnChar, joinWithChar]
  | cons c rest ih =>
    unfold splitOnChar
    cases h : splitOnChar sep rest with
    | nil => exact absurd h (splitOnChar_ne_nil sep rest)
    | cons hd tl =>
      rw [h] at ih
      dsimp
      by_cases hc : c = sep
      · simp only [hc, if_pos rfl, joinWithChar]
        rw [ih]
        simp
      · simp only [if_neg hc]
        cases tl with
        | nil => simp only [joinWithChar] at ih ⊢; rw [ih]
        | cons y ys =>
          simp only [joinWithChar] at ih ⊢
          rw [List.cons_append, ih]

/-- C1: for every profile section name, splitting on the separator yields
components; with at least 3 components the constructed Profile has
client = component 0, account = component 1, role = the remaining components
re-joined with the separator (and the components re-join to the original
name); with fewer than 3 components no Profile is produced. -/
theorem parseProfileName_spec (name : List Char) :
    (let parts := splitOnChar '-' name
     (parts.length ≥ 3 →
        parseProfileName name =
          some { client := parts.getD 0 [], account := parts.getD 1 [],
                 role := joinWithChar '-' (parts.drop 2), name := name } ∧
        joinWithChar '-' parts = name) ∧
     (parts.length < 3 → parseProfileName name = none)) := by
  refine ⟨fun h3 => ⟨?_, joinWithChar_splitOnChar '-' name⟩, fun hlt => ?_⟩
  · simp [parseProfileName, h3]
  · simp [parseProfileName, Nat.not_le.mpr hlt]

/-- Witness for `parseProfileName_spec` at the concrete names
`"acme-dev-admin"` (parsed) and `"client-dev"` (rejected). -/
theorem parseProfileName_spec_witness :
    parseProfileName "acme-dev-admin".toList =
      some { client := "acme".toList, account := "dev".toList,
             role := "admin".toList, name := "acme-dev-admin".toList } ∧
    parseProfileName "client-dev".toList = none := by
  constructor
  · exact ((parseProfileName_spec "acme-dev-admin".toList).1 (by decide)).1.trans (by decide)
  · exact (parseProfileName_spec "client-dev".toList).2 (by decide)

/-- Embeds the `collect::<BTreeSet<_>>()` followed by `into_iter().collect()`
idiom of `src/main.rs` (lines 318-323, 330-336, 344-350) and
`select_unique_values` in `src/profile.rs`: ordered-set insertion producing
the strictly ascending list of distinct values. -/
def setInsert (x : List Char) : List (List Char) → List (List Char)
  | [] => [x]
  | y :: ys => if x < y then x :: y :: ys else if y < x then y :: setInsert x ys else y :: ys

/-- Collects a list of values into the strictly ascending duplicate-free list
of its distinct elements (the iteration order of a `BTreeSet`). -/
def collectSorted (l : List (List Char)) : List (List Char) :=
  l.foldl (fun acc x => setInsert x acc) []

/-- Candidate clients, as built in `src/main.rs` lines 318-323. -/
def uniqueClients (profiles : List Profile) : List (List Char) :=
  collectSorted (profiles.map Profile.client)

/-- Candidate accounts for a fixed client, `src/main.rs` lines 330-336. -/
def uniqueAccounts (profiles : List Profile) (client : List Char) : List (List Char) :=
  collectSorted ((profiles.filter (fun p => decide (p.client = client))).map Profile.account)

/-- Candidate roles for a fixed client and account, `src/main.rs` lines 344-350. -/
def uniqueRoles (profiles : List Profile) (client account : List Char) : List (List Char) :=
  collectSorted ((profiles.filter
    (fun p => decide (p.client = client) && decide (p.account = account))).map Profile.role)

theorem setInsert_mem (x a : List Char) (l : List (List Char)) :
    a ∈ setInsert x l ↔ a = x ∨ a ∈ l := by
  induction l with
  | nil => simp [setInsert]
  | cons y ys ih =>
    unfold setInsert
    by_cases h1 : x < y
    · simp [h1]
    · by_cases h2 : y < x
      · simp only [if_neg h1, if_pos h2, List.mem_cons, ih]
        tauto
      · have hxy : x = y := le_antisymm (not_lt.mp h2) (not_lt.mp h1)
        subst hxy
        simp only [if_neg h1, List.mem_cons]
        tauto

theorem setInsert_pairwise (x : List Char) (l : List (List Char))
    (hl : List.Pairwise (· < ·) l) : List.Pairwise (· < ·) (setInsert x l) := by
  induction l with
  | nil => simp [setInsert]
  | cons y ys ih =>
    rcases List.pairwise_cons.mp hl with ⟨hy, hys⟩
    unfold setInsert
    by_cases h1 : x < y
    · rw [if_pos h1]
      refine List.pairwise_cons.mpr ⟨?_, hl⟩
      intro z hz
      rcases List.mem_cons.mp hz with rfl | hz'
      · exact h1
      · exact lt_trans h1 (hy z hz')
    · by_cases h2 : y < x
      · rw [if_neg h1, if_pos h2]
        refine List.pairwise_cons.mpr ⟨?_, ih hys⟩
        intro z hz
        rcases (setInsert_mem x z ys).mp hz with rfl | hz'
        · exact h2
        · exact hy z hz'
      · rw [if_neg h1, if_neg h2]
        exact hl

theorem collectSorted_pairwise (l : List (List Char)) :
    List.Pairwise (· < ·) (collectSorted l) := by
  suffices h : ∀ acc, List.Pairwise (· < ·) acc →
      List.Pairwise (· < ·) (l.foldl (fun acc x => setInsert x acc) acc) by
    exact h [] (by simp)
  induction l with
  | nil => intro acc hacc; simpa using hacc
  | cons x xs ih =>
    intro acc hacc
    exact ih (setInsert x acc) (setInsert_pairwise x acc hacc)

theorem collectSorted_mem (l : List (List Char)) (a : List Char) :
    a ∈ collectSorted l ↔ a ∈ l := by
  suffices h : ∀ acc, a ∈ l.foldl (fun acc x => setInsert x acc) acc ↔ a ∈ l ∨ a ∈ acc by
    simpa [collectSorted] using h []
  induction l with
  | nil => intro acc; simp
  | cons x xs ih =>
    intro acc
    rw [List.foldl_cons, ih (setInsert x acc), setInsert_mem]
    simp only [List.mem_cons]
    tauto

theorem collectSorted_nodup (l : List (List Char)) : (collectSorted l).Nodup := by
  exact (collectSorted_pairwise l).imp (fun h => ne_of_lt h)

/-- Strictly sorted lists are canonical: equal membership forces equality. -/
theorem sortedEqOfMemIff (l1 l2 : List (List Char))
    (h1 : List.Pairwise (· < ·) l1) (h2 : List.Pairwise (· < ·) l2)
    (hmem : ∀ x, x ∈ l1 ↔ x ∈ l2) : l1 = l2 := by
  induction l1 generalizing l2 with
  | nil =>
    cases l2 with
    | nil => rfl
    | cons b bs => exact absurd ((hmem b).mpr (by simp)) (by simp)
  | cons a as ih =>
    cases l2 with
    | nil => exact absurd ((hmem a).mp (by simp)) (by simp)
    | cons b bs =>
      rcases List.pairwise_cons.mp h1 with ⟨ha, has⟩
      rcases List.pairwise_cons.mp h2 with ⟨hb, hbs⟩
      have hab : a = b := by
        rcases List.mem_cons.mp ((hmem a).mp (by simp)) with h | h
        · exact h
        · rcases List.mem_cons.mp ((hmem b).mpr (by simp)) with h' | h'
          · exact h'.symm
          · exact absurd (lt_trans (ha b h') (hb a h)) (lt_irrefl a)
      subst hab
      have htails : ∀ x, x ∈ as ↔ x ∈ bs := by
        intro x
        constructor
        · intro hx
          rcases List.mem_cons.mp ((hmem x).mp (List.mem_cons_of_mem a hx)) with h | h
          · exact absurd (h ▸ ha x hx) (lt_irrefl a)
          · exact h
        · intro hx
          rcases List.mem_cons.mp ((hmem x).mpr (List.mem_cons_of_mem a hx)) with h | h
          · exact absurd (h ▸ hb x hx) (lt_irrefl a)
          · exact h
      exact congrArg (a :: ·) (ih bs has hbs htails)

/-- Stable insertion step for a descending sort by a Nat key: the inserted
element goes after every already-placed element with a strictly larger key and
before the rest, which matches the stable `sort_by(|a, b| b.1.cmp(a.1))` of
the source when the inserted element originally preceded the rest. -/
def insertDescBy {α : Type} (key : α → Nat) (a : α) : List α → List α
  | [] => [a]
  | b :: bs => if key a < key b then b :: insertDescBy key a bs else a :: b :: bs

/-- Stable descending sort by a Nat key, embedding the source's
`sort_by(|a, b| b.1.cmp(a.1))` (Rust `sort_by` is stable). -/
def sortDescBy {α : Type} (key : α → Nat) : List α → List α
  | [] => []
  | a :: as => insertDescBy key a (sortDescBy key as)

theorem insertDescBy_perm {α : Type} (key : α → Nat) (a : α) (l : List α) :
    List.Perm (insertDescBy key a l) (a :: l) := by
  induction l with
  | nil => exact List.Perm.refl _
  | cons b bs ih =>
    unfold insertDescBy
    split
    · exact (ih.cons b).trans (List.Perm.swap a b bs)
    · exact List.Perm.refl _

theorem sortDescBy_perm {α : Type} (key : α → Nat) (l : List α) :
    List.Perm (sortDescBy key l) l := by
  induction l with
  | nil => exact List.Perm.refl _
  | cons a as ih =>
    exact (insertDescBy_perm key a (sortDescBy key as)).trans (ih.cons a)

theorem insertDescBy_pairwise {α : Type} (key : α → Nat) (a : α) (l : List α)
    (h : List.Pairwise (fun x y => key y ≤ key x) l) :
    List.Pairwise (fun x y => key y ≤ key x) (insertDescBy key a l) := by
  induction l with
  | nil => simp [insertDescBy]
  | cons b bs ih =>
    rcases List.pairwise_cons.mp h with ⟨hb, hbs⟩
    unfold insertDescBy
    split
    · rename_i hlt
      refine List.pairwise_cons.mpr ⟨?_, ih hbs⟩
      intro z hz
      rcases List.mem_cons.mp ((insertDescBy_perm key a bs).mem_iff.mp hz) with rfl | h1
      · exact le_of_lt hlt
      · exact hb z h1
    · refine List.pairwise_cons.mpr ⟨?_, h⟩
      intro z hz
      rename_i hnlt
      rcases List.mem_cons.mp hz with rfl | h1
      · exact not_lt.mp hnlt
      · exact le_trans (hb z h1) (not_lt.mp hnlt)

theorem sortDescBy_pairwise {α : Type} (key : α → Nat) (l : List α) :
    List.Pairwise (fun x y => key y ≤ key x) (sortDescBy key l) := by
  induction l with
  | nil => simp [sortDescBy]
  | cons a as ih => exact insertDescBy_pairwise key a (sortDescBy key as) ih

/-- Embeds `recent.profiles.get(&name).unwrap_or(&0)` of `src/main.rs`. -/
def recencyOf (m : List (List Char × Nat)) (name : List Char) : Nat :=
  ((m.find? (fun kv => decide (kv.1 = name))).map Prod.snd).getD 0

/-- Embeds `HashMap::insert` on the recency map: overwrite the entry for the
name if present, otherwise add it.  The map is carried in its (arbitrary)
HashMap iteration order; a fresh key is placed at the end, one admissible
order. -/
def entryInsert (m : List (List Char × Nat)) (name : List Char) (ts : Nat) :
    List (List Char × Nat) :=
  if m.any (fun kv => decide (kv.1 = name)) then
    m.map (fun kv => if kv.1 = name then (name, ts) else kv)
  else m ++ [(name, ts)]

/-- Embeds the cap enforcement of `save_recent_profile` (`src/config.rs` lines
72-76 and `src/main.rs` lines 111-115): when the map holds more entries than
the cap, sort descending by timestamp (stably) and keep the first `cap`. -/
def pruneToCap (m : List (List Char × Nat)) (cap : Nat) : List (List Char × Nat) :=
  if m.length > cap then (sortDescBy Prod.snd m).take cap else m

/-- Embeds the in-memory ledger update of `save_recent_profile` (file I/O is
an external collaborator): insert/overwrite the entry for `name` with the
current timestamp, then enforce the cap. -/
def save_recent_profile (m : List (List Char × Nat)) (name : List Char) (ts cap : Nat) :
    List (List Char × Nat) :=
  pruneToCap (entryInsert m name ts) cap

theorem pruneToCap_length (m : List (List Char × Nat)) (cap : Nat) :
    (pruneToCap m cap).length ≤ cap := by
  unfold pruneToCap
  split
  · rw [List.length_take]
    exact Nat.min_le_left _ _
  · omega

/-- Recency ledger of spec scenario E. -/
def demoLedger : List (List Char × Nat) :=
  [("acme-dev-admin".toList, 200), ("acme-prod-readonly".toList, 100)]

/-- C3: after any sequence of record calls the ledger holds at most `cap`
entries (first two conjuncts: for a whole sequence from the empty ledger, and
for a single call from any prior state), and every entry of the
post-insertion map that is dropped by the prune has a timestamp no larger
than any retained entry (ties broken by the deterministic stable sort over
the carried iteration order). -/
theorem save_recent_cap_spec :
    (∀ (calls : List (List Char × Nat)) (cap : Nat),
        (calls.foldl (fun m c => save_recent_profile m c.1 c.2 cap) []).length ≤ cap) ∧
    (∀ (m : List (List Char × Nat)) (name : List Char) (ts cap : Nat),
        (save_recent_profile m name ts cap).length ≤ cap) ∧
    (∀ (m : List (List Char × Nat)) (name : List Char) (ts cap : Nat)
        (p : List Char × Nat), p ∈ entryInsert m name ts →
        p ∉ save_recent_profile m name ts cap →
        ∀ q ∈ save_recent_profile m name ts cap, p.2 ≤ q.2) := by
  have hstep : ∀ (m : List (List Char × Nat)) (name : List Char) (ts cap : Nat),
      (save_recent_profile m name ts cap).length ≤ cap := by
    intro m name ts cap
    exact pruneToCap_length _ _
  refine ⟨?_, hstep, ?_⟩
  · have main : ∀ (calls init : List (List Char × Nat)) (cap : Nat), init.length ≤ cap →
        (calls.foldl (fun m c => save_recent_profile m c.1 c.2 cap) init).length ≤ cap := by
      intro calls
      induction calls with
      | nil => intro init cap h; simpa using h
      | cons c cs ih => intro init cap h; exact ih _ cap (hstep init c.1 c.2 cap)
    intro calls cap
    exact main calls [] cap (by simp)
  · intro m name ts cap p hp hnp q hq
    unfold save_recent_profile pruneToCap at hnp hq
    by_cases hlen : (entryInsert m name ts).length > cap
    · rw [if_pos hlen] at hnp hq
      have hps : p ∈ sortDescBy Prod.snd (entryInsert m name ts) :=
        (sortDescBy_perm Prod.snd _).mem_iff.mpr hp
      have hsplit := List.take_append_drop cap (sortDescBy Prod.snd (entryInsert m name ts))
      have hpd : p ∈ (sortDescBy Prod.snd (entryInsert m name ts)).drop cap := by
        rcases List.mem_append.mp (hsplit.symm ▸ hps) with h | h
        · exact absurd h hnp
        · exact h
      have hpair := sortDescBy_pairwise Prod.snd (entryInsert m name ts)
      rw [← hsplit] at hpair
      rcases List.pairwise_append.mp hpair with ⟨-, -, hcross⟩
      exact hcross q hq p hpd
    · rw [if_neg hlen] at hnp
      exact absurd hp hnp

/-- Witness for `save_recent_cap_spec`: spec scenario E: ledger
acme-dev-admin at 200 and acme-prod-readonly at 100, then record
acme-prod-readonly at timestamp 300 with cap 1: the dropped entry at 200 is
no newer than the retained entry at 300 (and indeed the ledger becomes
exactly the single entry at 300). -/
theorem save_recent_cap_spec_witness :
    (("acme-dev-admin".toList, 200) ∈ entryInsert demoLedger "acme-prod-readonly".toList 300) ∧
    (("acme-dev-admin".toList, 200) ∉
      save_recent_profile demoLedger "acme-prod-readonly".toList 300 1) ∧
    save_recent_profile demoLedger "acme-prod-readonly".toList 300 1 =
      [("acme-prod-readonly".toList, 300)] ∧
    200 ≤ (("acme-prod-readonly".toList, 300) : List Char × Nat).2 :=
  ⟨by decide, by decide, by decide,
    save_recent_cap_spec.2.2 demoLedger "acme-prod-readonly".toList 300 1
      ("acme-dev-admin".toList, 200) (by decide) (by decide)
      ("acme-prod-readonly".toList, 300) (by decide)⟩

/-- Ledger with one entry whose timestamp ties the next recorded timestamp. -/
def tieLedger : List (List Char × Nat) := [("acme-dev-admin".toList, 300)]

/-- C10 counterexample: with a pre-existing entry at timestamp 300, recording
a new name whose assigned timestamp is also 300 (so "at least as large as
every timestamp already in the ledger") under cap 1 prunes the entry just
recorded: the stable descending sort keeps the tied pre-existing entry first
(one admissible HashMap iteration order) and `take 1` drops the new one. -/
theorem save_recent_newest_pruned_counterexample :
    (∀ p ∈ tieLedger, p.2 ≤ 300) ∧ 1 ≤ 1 ∧
    ("acme-prod-readonly".toList, 300) ∉
      save_recent_profile tieLedger "acme-prod-readonly".toList 300 1 ∧
    save_recent_profile tieLedger "acme-prod-readonly".toList 300 1 = tieLedger := by
  decide

/-- C10 amended: if the recorded timestamp is strictly larger than the
timestamp of every other entry of the prior ledger, then for every cap ≥ 1
the entry just recorded survives the cap-enforcing prune. -/
theorem save_recent_newest_kept (m : List (List Char × Nat)) (name : List Char)
    (ts cap : Nat) (hstrict : ∀ p ∈ m, p.1 ≠ name → p.2 < ts) (hcap : 1 ≤ cap) :
    (name, ts) ∈ save_recent_profile m name ts cap := by
  have hmem : (name, ts) ∈ entryInsert m name ts := by
    unfold entryInsert
    split
    · rename_i hany
      rcases List.any_eq_true.mp hany with ⟨kv, hkv, hdec⟩
      have hk : kv.1 = name := of_decide_eq_true hdec
      exact List.mem_map.mpr ⟨kv, hkv, by simp [hk]⟩
    · simp
  have hdom : ∀ p ∈ entryInsert m name ts, p = (name, ts) ∨ p.2 < ts := by
    unfold entryInsert
    split
    · intro p hp
      rcases List.mem_map.mp hp with ⟨kv, hkv, heq⟩
      by_cases hk : kv.1 = name
      · left; rw [← heq]; simp [hk]
      · right
        rw [← heq]
        simp only [if_neg hk]
        exact hstrict kv hkv hk
    · rename_i hany
      intro p hp
      rcases List.mem_append.mp hp with h | h
      · right
        refine hstrict p h ?_
        intro hname
        exact hany (List.any_eq_true.mpr ⟨p, h, decide_eq_true hname⟩)
      · left; simpa using h
  unfold save_recent_profile pruneToCap
  split
  · have hmems : (name, ts) ∈ sortDescBy Prod.snd (entryInsert m name ts) :=
      (sortDescBy_perm Prod.snd _).mem_iff.mpr hmem
    have hpair := sortDescBy_pairwise Prod.snd (entryInsert m name ts)
    cases hcase : sortDescBy Prod.snd (entryInsert m name ts) with
    | nil => rw [hcase] at hmems; simp at hmems
    | cons hd tl =>
      rw [hcase] at hmems hpair
      rcases List.pairwise_cons.mp hpair with ⟨hhd, -⟩
      have hh : hd = (name, ts) := by
        rcases List.mem_cons.mp hmems with heq | hmt
        · exact heq.symm
        · have h1 : ts ≤ hd.2 := hhd (name, ts) hmt
          have h2 : hd ∈ entryInsert m name ts :=
            (sortDescBy_perm Prod.snd _).mem_iff.mp (hcase ▸ List.mem_cons_self hd tl)
          rcases hdom hd h2 with heq | hlt2
          · exact heq
          · omega
      cases cap with
      | zero => omega
      | succ k =>
        rw [List.take_succ_cons, hh]
        exact List.mem_cons_self _ _
  · exact hmem

/-- Prior ledger for the witness of `save_recent_newest_kept`. -/
def oldLedger : List (List Char × Nat) := [("acme-dev-admin".toList, 200)]

/-- Witness for `save_recent_newest_kept` at a concrete ledger. -/
theorem save_recent_newest_kept_witness :
    (∀ p ∈ oldLedger, p.1 ≠ "acme-prod-readonly".toList → p.2 < 300) ∧ 1 ≤ 1 ∧
    ("acme-prod-readonly".toList, 300) ∈
      save_recent_profile oldLedger "acme-prod-readonly".toList 300 1 :=
  ⟨by decide, by decide,
    save_recent_newest_kept oldLedger "acme-prod-readonly".toList 300 1
      (by decide) (by decide)⟩

theorem uniqueClients_mem (profiles : List Profile) (x : List Char) :
    x ∈ uniqueClients profiles ↔ ∃ p ∈ profiles, p.client = x := by
  unfold uniqueClients
  rw [collectSorted_mem, List.mem_map]

theorem uniqueAccounts_mem (profiles : List Profile) (client x : List Char) :
    x ∈ uniqueAccounts profiles client ↔
      ∃ p ∈ profiles, p.client = client ∧ p.account = x := by
  unfold uniqueAccounts
  rw [collectSorted_mem, List.mem_map]
  constructor
  · rintro ⟨p, hp, hx⟩
    rcases List.mem_filter.mp hp with ⟨hmem, hcl⟩
    exact ⟨p, hmem, of_decide_eq_true hcl, hx⟩
  · rintro ⟨p, hp, hcl, hx⟩
    exact ⟨p, List.mem_filter.mpr ⟨hp, decide_eq_true hcl⟩, hx⟩

theorem uniqueRoles_mem (profiles : List Profile) (client account x : List Char) :
    x ∈ uniqueRoles profiles client account ↔
      ∃ p ∈ profiles, p.client = client ∧ p.account = account ∧ p.role = x := by
  unfold uniqueRoles
  rw [collectSorted_mem, List.mem_map]
  constructor
  · rintro ⟨p, hp, hx⟩
    rcases List.mem_filter.mp hp with ⟨hmem, hcl⟩
    rcases Bool.and_eq_true .. |>.mp hcl with ⟨h1, h2⟩
    exact ⟨p, hmem, of_decide_eq_true h1, of_decide_eq_true h2, hx⟩
  · rintro ⟨p, hp, hcl, hac, hx⟩
    refine ⟨p, List.mem_filter.mpr ⟨hp, ?_⟩, hx⟩
    rw [Bool.and_eq_true]
    exact ⟨decide_eq_true hcl, decide_eq_true hac⟩

/-- C6: each derived candidate set (clients; accounts filtered by client;
roles filtered by client and account) is strictly sorted, duplicate-free, and
its members are exactly the distinct field values among the matching
profiles; moreover the output is canonical: any profile list with the same
set of client values yields the identical client candidate list (the
determinism guarantee). -/
theorem candidateIndex_spec (profiles : List Profile) (client account : List Char) :
    (List.Pairwise (· < ·) (uniqueClients profiles) ∧ (uniqueClients profiles).Nodup ∧
      ∀ x, (x ∈ uniqueClients profiles ↔ ∃ p ∈ profiles, p.client = x)) ∧
    (List.Pairwise (· < ·) (uniqueAccounts profiles client) ∧
      (uniqueAccounts profiles client).Nodup ∧
      ∀ x, (x ∈ uniqueAccounts profiles client ↔
        ∃ p ∈ profiles, p.client = client ∧ p.account = x)) ∧
    (List.Pairwise (· < ·) (uniqueRoles profiles client account) ∧
      (uniqueRoles profiles client account).Nodup ∧
      ∀ x, (x ∈ uniqueRoles profiles client account ↔
        ∃ p ∈ profiles, p.client = client ∧ p.account = account ∧ p.role = x)) ∧
    (∀ ps2 : List Profile,
      (∀ x, (∃ p ∈ profiles, p.client = x) ↔ ∃ p ∈ ps2, p.client = x) →
      uniqueClients profiles = uniqueClients ps2) := by
  refine ⟨⟨collectSorted_pairwise _, collectSorted_nodup _, uniqueClients_mem profiles⟩,
    ⟨collectSorted_pairwise _, collectSorted_nodup _, uniqueAccounts_mem profiles client⟩,
    ⟨collectSorted_pairwise _, collectSorted_nodup _, uniqueRoles_mem profiles client account⟩,
    ?_⟩
  intro ps2 hsame
  refine sortedEqOfMemIff _ _ (collectSorted_pairwise _) (collectSorted_pairwise _) ?_
  intro x
  rw [uniqueClients_mem, uniqueClients_mem]
  exact hsame x

/-- First demo profile (spec scenario A). -/
def demoP1 : Profile :=
  { client := "acme".toList, account := "dev".toList, role := "admin".toList,
    name := "acme-dev-admin".toList }

/-- Second demo profile (spec scenario A). -/
def demoP2 : Profile :=
  { client := "acme".toList, account := "prod".toList, role := "readonly".toList,
    name := "acme-prod-readonly".toList }

/-- Witness for `candidateIndex_spec`: concrete candidate sets of spec
scenario A, and order-insensitivity of the client candidate list. -/
theorem candidateIndex_spec_witness :
    uniqueClients [demoP1, demoP2] = ["acme".toList] ∧
    uniqueAccounts [demoP1, demoP2] "acme".toList = ["dev".toList, "prod".toList] ∧
    uniqueRoles [demoP1, demoP2] "acme".toList "dev".toList = ["admin".toList] ∧
    uniqueClients [demoP1, demoP2] = uniqueClients [demoP2, demoP1] :=
  ⟨by decide, by decide, by decide,
    (candidateIndex_spec [demoP1, demoP2] [] []).2.2.2 [demoP2, demoP1] (by
      intro x
      constructor
      · rintro ⟨p, hp, hx⟩
        refine ⟨p, ?_, hx⟩
        simp only [List.mem_cons, List.not_mem_nil, or_false] at hp ⊢
        tauto
      · rintro ⟨p, hp, hx⟩
        refine ⟨p, ?_, hx⟩
        simp only [List.mem_cons, List.not_mem_nil, or_false] at hp ⊢
        tauto)⟩

/-- External actions `main` can perform, in order, identified by the profile
whose name they are invoked with. -/
inductive Effect where
  | authenticate : List Char → Effect
  | openConsole : List Char → Effect
  | recordRecency : List Char → Effect
  | setDefault : List Char → Effect
deriving DecidableEq, Repr

/-- Terminal outcomes of `main` in `src/main.rs`. -/
inductive Outcome where
  | noProfiles
  | listed
  | cancelled
  | success
  | loginFailed
  | noMatchingProfile
  | selectionIncomplete
deriving DecidableEq, Repr

/-- Process exit code for each outcome: `std::process::exit(1)` on the error
paths (lines 272, 374, 387, 391 of `src/main.rs`), plain `return`/fall-through
(exit 0) otherwise. -/
def exitCode : Outcome → Nat
  | .noProfiles => 1
  | .listed => 0
  | .cancelled => 0
  | .success => 0
  | .loginFailed => 1
  | .noMatchingProfile => 1
  | .selectionIncomplete => 1

/-- Embeds the unified-mode row formatting of `src/main.rs` line 304:
`format!("{} | {} | {} | {}", p.client, p.account, p.role, p.name)`. -/
def formatRow (p : Profile) : List Char :=
  p.client ++ " | ".toList ++ p.account ++ " | ".toList ++ p.role ++ " | ".toList ++ p.name

/-- Embeds the unified-mode row decomposition of `src/main.rs` lines 308-311:
split the picked row on the delimiter, trim each part, and take parts 0, 1, 2
as client, account, role.  The rows built by the program always have at least
four parts, so the `getD` default is never consulted on a real picker
output. -/
def decomposeRow (choice : List Char) : List Char × List Char × List Char :=
  let parts := (splitOnChar '|' choice).map trimChars
  (parts.getD 0 [], parts.getD 1 [], parts.getD 2 [])

/-- Embeds one cascading-mode step of `src/main.rs` (lines 317-328, 329-341,
342-355): a pre-filled slot is kept and no picker runs; an unset slot is
filled from the picker, whose cancellation (`None`) propagates. -/
def stepFill (slot : Option (List Char)) (prompt : List Char)
    (options : List (List Char))
    (pick : List Char → List (List Char) → Option (List Char)) :
    Option (List Char) :=
  match slot with
  | none => pick prompt options
  | some v => some v

/-- Embeds the cascading (step-by-step) selection of `src/main.rs` lines
315-356: fill client, then account (filtered by client), then role (filtered
by client and account); `none` models the early `return` on a cancelled
pick. -/
def cascadeSelect (ps : List Profile) (pc pa pr : Option (List Char))
    (pick : List Char → List (List Char) → Option (List Char)) :
    Option (List Char × List Char × List Char) :=
  match stepFill pc "Select Client".toList (uniqueClients ps) pick with
  | none => none
  | some c =>
    match stepFill pa "Select Account".toList (uniqueAccounts ps c) pick with
    | none => none
    | some a =>
      match stepFill pr "Select Role".toList (uniqueRoles ps c a) pick with
      | none => none
      | some r => some (c, a, r)

/-- Embeds `src/main.rs` lines 284-291: when the recent flag is set, sort the
profiles stably by descending last-used timestamp (absent profiles count as
timestamp 0). -/
def displayProfiles (profiles : List Profile) (recentFlag : Bool)
    (recentMap : List (List Char × Nat)) : List Profile :=
  if recentFlag then sortDescBy (fun p => recencyOf recentMap p.name) profiles
  else profiles

/-- Embeds the selection phase of `main` (lines 300-356): unified mode builds
one flat row per profile and decomposes the picked row into the three slots;
cascading mode fills the slots step by step.  `none` models the early
`return` (exit 0) on a cancelled pick; otherwise the three slots as they
stand at the resolution point (line 358). -/
def selectPhase (ps : List Profile) (pc pa pr : Option (List Char))
    (unified : Bool)
    (pick : List Char → List (List Char) → Option (List Char)) :
    Option (Option (List Char) × Option (List Char) × Option (List Char)) :=
  if unified then
    match pick "Select Profile".toList (ps.map formatRow) with
    | some choice =>
      some (some (decomposeRow choice).1, some (decomposeRow choice).2.1,
        some (decomposeRow choice).2.2)
    | none => none
  else
    match cascadeSelect ps pc pa pr pick with
    | none => none
    | some (c, a, r) => some (some c, some a, some r)

/-- Embeds the resolution and action part of `main` (lines 357-392): when all
three slots are filled, find the first profile matching the triple; on a
match run `aws sso login` (`loginOk` is its exit status), and only on its
success record recency and, if requested, set the default profile (whose
failure the code merely warns about — `sdOk` is that result, which affects
nothing else).  A missing profile or an unfilled slot reach the two
`exit(1)` branches. -/
def resolveAndAct (ps : List Profile) (oc oa orr : Option (List Char))
    (setDef loginOk sdOk : Bool) : Outcome × List Effect :=
  match oc, oa, orr with
  | some c, some a, some r =>
    match ps.find? (fun p =>
        decide (p.client = c) && decide (p.account = a) && decide (p.role = r)) with
    | some p =>
      if loginOk then
        if setDef then
          (.success, [Effect.authenticate p.name, Effect.recordRecency p.name,
            Effect.setDefault p.name])
        else (.success, [Effect.authenticate p.name, Effect.recordRecency p.name])
      else (.loginFailed, [Effect.authenticate p.name])
    | none => (.noMatchingProfile, [])
  | _, _, _ => (.selectionIncomplete, [])

/-- Embeds `main` of `src/main.rs` from the point where the profiles have
been loaded (line 268) to process exit.  `pc`, `pa`, `pr` are the
CLI-argument/settings-default merged initial slots (lines 276-278); `pick`
is the skim picker collaborator.  Returns the terminal outcome and the
ordered list of external actions performed. -/
def runMain (profiles : List Profile) (pc pa pr : Option (List Char))
    (unified setDef listFlag recentFlag : Bool)
    (recentMap : List (List Char × Nat))
    (pick : List Char → List (List Char) → Option (List Char))
    (loginOk sdOk : Bool) : Outcome × List Effect :=
  if profiles.isEmpty then (.noProfiles, [])
  else if listFlag then (.listed, [])
  else
    match selectPhase (displayProfiles profiles recentFlag recentMap) pc pa pr unified pick with
    | none => (.cancelled, [])
    | some (oc, oa, orr) =>
      resolveAndAct (displayProfiles profiles recentFlag recentMap) oc oa orr
        setDef loginOk sdOk

theorem displayProfiles_mem (profiles : List Profile) (recentFlag : Bool)
    (recentMap : List (List Char × Nat)) (p : Profile) :
    p ∈ displayProfiles profiles recentFlag recentMap ↔ p ∈ profiles := by
  unfold displayProfiles
  split
  · exact (sortDescBy_perm _ _).mem_iff
  · exact Iff.rfl

theorem cascadeSelect_presets (ps : List Profile) (c a r : List Char)
    (pick : List Char → List (List Char) → Option (List Char)) :
    cascadeSelect ps (some c) (some a) (some r) pick = some (c, a, r) := rfl

theorem resolveAndAct_find_none (ps : List Profile) (c a r : List Char)
    (setDef loginOk sdOk : Bool)
    (hfind : ps.find? (fun p =>
      decide (p.client = c) && decide (p.account = a) && decide (p.role = r)) = none) :
    resolveAndAct ps (some c) (some a) (some r) setDef loginOk sdOk =
      (.noMatchingProfile, []) := by
  unfold resolveAndAct
  dsimp only
  rw [hfind]

theorem resolveAndAct_some_shape (ps : List Profile) (c a r : List Char)
    (setDef loginOk sdOk : Bool) :
    resolveAndAct ps (some c) (some a) (some r) setDef loginOk sdOk =
        (.noMatchingProfile, []) ∨
    (∃ p : Profile, loginOk = false ∧
      resolveAndAct ps (some c) (some a) (some r) setDef loginOk sdOk =
        (.loginFailed, [Effect.authenticate p.name])) ∨
    (∃ p : Profile, loginOk = true ∧ setDef = true ∧
      resolveAndAct ps (some c) (some a) (some r) setDef loginOk sdOk =
        (.success, [Effect.authenticate p.name, Effect.recordRecency p.name,
          Effect.setDefault p.name])) ∨
    (∃ p : Profile, loginOk = true ∧ setDef = false ∧
      resolveAndAct ps (some c) (some a) (some r) setDef loginOk sdOk =
        (.success, [Effect.authenticate p.name, Effect.recordRecency p.name])) := by
  unfold resolveAndAct
  dsimp only
  cases hfind : ps.find? (fun p =>
      decide (p.client = c) && decide (p.account = a) && decide (p.role = r)) with
  | none => left; rfl
  | some p =>
    cases loginOk with
    | false => right; left; exact ⟨p, rfl, rfl⟩
    | true =>
      cases setDef with
      | false => right; right; right; exact ⟨p, rfl, rfl, rfl⟩
      | true => right; right; left; exact ⟨p, rfl, rfl, rfl⟩

theorem selectPhase_shape (ps : List Profile) (pc pa pr : Option (List Char))
    (unified : Bool) (pick : List Char → List (List Char) → Option (List Char)) :
    selectPhase ps pc pa pr unified pick = none ∨
    ∃ c a r, selectPhase ps pc pa pr unified pick = some (some c, some a, some r) := by
  unfold selectPhase
  split
  · cases h : pick "Select Profile".toList (ps.map formatRow) with
    | none => left; rfl
    | some choice => right; exact ⟨_, _, _, rfl⟩
  · cases h : cascadeSelect ps pc pa pr pick with
    | none => left; rfl
    | some t =>
      obtain ⟨c, a, r⟩ := t
      right; exact ⟨c, a, r, rfl⟩

theorem runMain_cases (profiles : List Profile) (pc pa pr : Option (List Char))
    (unified setDef listFlag recentFlag : Bool) (recentMap : List (List Char × Nat))
    (pick : List Char → List (List Char) → Option (List Char)) (loginOk sdOk : Bool) :
    runMain profiles pc pa pr unified setDef listFlag recentFlag recentMap pick loginOk sdOk
        = (.noProfiles, []) ∨
    runMain profiles pc pa pr unified setDef listFlag recentFlag recentMap pick loginOk sdOk
        = (.listed, []) ∨
    runMain profiles pc pa pr unified setDef listFlag recentFlag recentMap pick loginOk sdOk
        = (.cancelled, []) ∨
    ∃ c a r, runMain profiles pc pa pr unified setDef listFlag recentFlag recentMap pick
          loginOk sdOk =
        resolveAndAct (displayProfiles profiles recentFlag recentMap)
          (some c) (some a) (some r) setDef loginOk sdOk := by
  unfold runMain
  split
  · left; rfl
  · split
    · right; left; rfl
    · rcases selectPhase_shape (displayProfiles profiles recentFlag recentMap) pc pa pr
          unified pick with h | ⟨c, a, r, h⟩
      · rw [h]; right; right; left; rfl
      · rw [h]; right; right; right; exact ⟨c, a, r, rfl⟩

/-- C2: with all three slots pre-filled (cascading mode, not list mode) and
no loaded profile whose client, account and role simultaneously match the
triple, the run ends with the "no matching profile" outcome and a non-zero
exit code, and performs no authenticate, console-open, recency or
set-default action (the effect list is empty). -/
theorem noMatchingProfile_spec (profiles : List Profile) (c a r : List Char)
    (setDef recentFlag : Bool) (recentMap : List (List Char × Nat))
    (pick : List Char → List (List Char) → Option (List Char)) (loginOk sdOk : Bool)
    (hne : profiles ≠ [])
    (hnomatch : ∀ p ∈ profiles, ¬(p.client = c ∧ p.account = a ∧ p.role = r)) :
    runMain profiles (some c) (some a) (some r) false setDef false recentFlag
        recentMap pick loginOk sdOk = (.noMatchingProfile, []) ∧
    exitCode .noMatchingProfile ≠ 0 := by
  have hne' : ¬(profiles.isEmpty = true) := by
    simp only [List.isEmpty_iff]
    exact hne
  have hfind : (displayProfiles profiles recentFlag recentMap).find? (fun p =>
      decide (p.client = c) && decide (p.account = a) && decide (p.role = r)) = none := by
    rw [List.find?_eq_none]
    intro p hp
    have hp' := (displayProfiles_mem profiles recentFlag recentMap p).mp hp
    intro hcontra
    simp only [Bool.and_eq_true, decide_eq_true_eq] at hcontra
    exact hnomatch p hp' ⟨hcontra.1.1, hcontra.1.2, hcontra.2⟩
  refine ⟨?_, by decide⟩
  unfold runMain
  rw [if_neg hne', if_neg Bool.false_ne_true]
  have hphase : selectPhase (displayProfiles profiles recentFlag recentMap)
      (some c) (some a) (some r) false pick = some (some c, some a, some r) := rfl
  rw [hphase]
  exact resolveAndAct_find_none _ c a r setDef loginOk sdOk hfind

/-- Witness for `noMatchingProfile_spec`: one loaded profile, triple
(acme, prod, admin) matching none. -/
theorem noMatchingProfile_spec_witness :
    [demoP1] ≠ [] ∧
    (∀ p ∈ [demoP1], ¬(p.client = "acme".toList ∧ p.account = "prod".toList ∧
      p.role = "admin".toList)) ∧
    runMain [demoP1] (some "acme".toList) (some "prod".toList) (some "admin".toList)
        false false false false [] (fun _ _ => none) true true =
      (.noMatchingProfile, []) :=
  ⟨by decide, by decide,
    (noMatchingProfile_spec [demoP1] "acme".toList "prod".toList "admin".toList
      false false [] (fun _ _ => none) true true (by decide) (by decide)).1⟩

theorem cascadeSelect_cancel_client (ps : List Profile) (pa pr : Option (List Char))
    (pick : List Char → List (List Char) → Option (List Char))
    (hp : pick "Select Client".toList (uniqueClients ps) = none) :
    cascadeSelect ps none pa pr pick = none := by
  unfold cascadeSelect stepFill
  dsimp only
  rw [hp]

theorem cascadeSelect_cancel_account (ps : List Profile) (pc pr : Option (List Char))
    (c : List Char) (pick : List Char → List (List Char) → Option (List Char))
    (hc : pc = some c ∨ (pc = none ∧
      pick "Select Client".toList (uniqueClients ps) = some c))
    (hp : pick "Select Account".toList (uniqueAccounts ps c) = none) :
    cascadeSelect ps pc none pr pick = none := by
  rcases hc with hc | ⟨hc, hpc⟩
  · subst hc
    unfold cascadeSelect stepFill
    dsimp only
    rw [hp]
  · subst hc
    unfold cascadeSelect stepFill
    dsimp only
    rw [hpc]
    dsimp only
    rw [hp]

theorem cascadeSelect_cancel_role (ps : List Profile) (pc pa : Option (List Char))
    (c a : List Char) (pick : List Char → List (List Char) → Option (List Char))
    (hc : pc = some c ∨ (pc = none ∧
      pick "Select Client".toList (uniqueClients ps) = some c))
    (ha : pa = some a ∨ (pa = none ∧
      pick "Select Account".toList (uniqueAccounts ps c) = some a))
    (hp : pick "Select Role".toList (uniqueRoles ps c a) = none) :
    cascadeSelect ps pc pa none pick = none := by
  rcases hc with hc | ⟨hc, hpc⟩
  · rcases ha with ha | ⟨ha, hpa⟩
    · subst hc; subst ha
      unfold cascadeSelect stepFill
      dsimp only
      rw [hp]
    · subst hc; subst ha
      unfold cascadeSelect stepFill
      dsimp only
      rw [hpa]
      dsimp only
      rw [hp]
  · rcases ha with ha | ⟨ha, hpa⟩
    · subst hc; subst ha
      unfold cascadeSelect stepFill
      dsimp only
      rw [hpc]
      dsimp only
      rw [hp]
    · subst hc; subst ha
      unfold cascadeSelect stepFill
      dsimp only
      rw [hpc]
      dsimp only
      rw [hpa]
      dsimp only
      rw [hp]

theorem selectPhase_none_of_cascade (ps : List Profile) (pc pa pr : Option (List Char))
    (pick : List Char → List (List Char) → Option (List Char))
    (h : cascadeSelect ps pc pa pr pick = none) :
    selectPhase ps pc pa pr false pick = none := by
  unfold selectPhase
  rw [if_neg Bool.false_ne_true, h]

theorem selectPhase_none_unified (ps : List Profile) (pc pa pr : Option (List Char))
    (pick : List Char → List (List Char) → Option (List Char))
    (h : pick "Select Profile".toList (ps.map formatRow) = none) :
    selectPhase ps pc pa pr true pick = none := by
  unfold selectPhase
  rw [if_pos rfl, h]

theorem runMain_cancelled_of_phase_none (profiles : List Profile)
    (pc pa pr : Option (List Char)) (unified setDef recentFlag : Bool)
    (recentMap : List (List Char × Nat))
    (pick : List Char → List (List Char) → Option (List Char)) (loginOk sdOk : Bool)
    (hne : profiles ≠ [])
    (hphase : selectPhase (displayProfiles profiles recentFlag recentMap) pc pa pr
      unified pick = none) :
    runMain profiles pc pa pr unified setDef false recentFlag recentMap pick
      loginOk sdOk = (.cancelled, []) := by
  have hne' : ¬(profiles.isEmpty = true) := by
    simp only [List.isEmpty_iff]
    exact hne
  unfold runMain
  rw [if_neg hne', if_neg Bool.false_ne_true, hphase]

/-- C7: cancellation at any picker step, in either mode, is clean and free of
side effects.  First conjunct: whenever the run's outcome is the cancellation
outcome, the exit code is 0 and no external action (no authenticate,
console-open, recency record or set-default) was performed.  Second conjunct
(cascading mode): whichever step the flow reaches — the client step, the
account step after the client was preset or interactively picked, or the
role step after client and account were each preset or interactively
picked — the picker returning `none` there ends the run in exactly the
cancellation outcome with an empty action list.  Third conjunct: the same
for the single unified-mode step.  In particular cancellation never yields
the "Selection incomplete" outcome, a distinct constructor. -/
theorem cancellation_clean_spec (profiles : List Profile) (pc pa pr : Option (List Char))
    (unified setDef listFlag recentFlag : Bool) (recentMap : List (List Char × Nat))
    (pick : List Char → List (List Char) → Option (List Char)) (loginOk sdOk : Bool) :
    ((runMain profiles pc pa pr unified setDef listFlag recentFlag recentMap pick
        loginOk sdOk).1 = .cancelled →
      (runMain profiles pc pa pr unified setDef listFlag recentFlag recentMap pick
        loginOk sdOk).2 = [] ∧
      exitCode (runMain profiles pc pa pr unified setDef listFlag recentFlag recentMap
        pick loginOk sdOk).1 = 0) ∧
    (profiles ≠ [] → ∀ c a : List Char,
      ((pc = none ∧ pick "Select Client".toList
          (uniqueClients (displayProfiles profiles recentFlag recentMap)) = none) →
        runMain profiles pc pa pr false setDef false recentFlag recentMap pick
          loginOk sdOk = (.cancelled, [])) ∧
      (((pc = some c ∨ (pc = none ∧ pick "Select Client".toList
            (uniqueClients (displayProfiles profiles recentFlag recentMap)) = some c)) ∧
        pa = none ∧ pick "Select Account".toList
          (uniqueAccounts (displayProfiles profiles recentFlag recentMap) c) = none) →
        runMain profiles pc pa pr false setDef false recentFlag recentMap pick
          loginOk sdOk = (.cancelled, [])) ∧
      (((pc = some c ∨ (pc = none ∧ pick "Select Client".toList
            (uniqueClients (displayProfiles profiles recentFlag recentMap)) = some c)) ∧
        (pa = some a ∨ (pa = none ∧ pick "Select Account".toList
            (uniqueAccounts (displayProfiles profiles recentFlag recentMap) c) = some a)) ∧
        pr = none ∧ pick "Select Role".toList
          (uniqueRoles (displayProfiles profiles recentFlag recentMap) c a) = none) →
        runMain profiles pc pa pr false setDef false recentFlag recentMap pick
          loginOk sdOk = (.cancelled, []))) ∧
    (profiles ≠ [] → pick "Select Profile".toList
        ((displayProfiles profiles recentFlag recentMap).map formatRow) = none →
      runMain profiles pc pa pr true setDef false recentFlag recentMap pick
        loginOk sdOk = (.cancelled, [])) := by
  refine ⟨?_, ?_, ?_⟩
  · rcases runMain_cases profiles pc pa pr unified setDef listFlag recentFlag recentMap
        pick loginOk sdOk with h | h | h | ⟨c, a, r, h⟩
    · rw [h]; intro hcan; exact absurd hcan (by decide)
    · rw [h]; intro hcan; exact absurd hcan (by decide)
    · rw [h]; intro hcan; exact ⟨rfl, rfl⟩
    · rcases resolveAndAct_some_shape (displayProfiles profiles recentFlag recentMap)
          c a r setDef loginOk sdOk with h2 | ⟨p, _, h2⟩ | ⟨p, _, _, h2⟩ | ⟨p, _, _, h2⟩ <;>
        (rw [h, h2]; intro hcan; exact Outcome.noConfusion hcan)
  · intro hne c a
    refine ⟨?_, ?_, ?_⟩
    · rintro ⟨hpc, hpick⟩
      subst hpc
      exact runMain_cancelled_of_phase_none profiles none pa pr false setDef recentFlag
        recentMap pick loginOk sdOk hne
        (selectPhase_none_of_cascade _ none pa pr pick
          (cascadeSelect_cancel_client _ pa pr pick hpick))
    · rintro ⟨hc, hpa, hpick⟩
      subst hpa
      exact runMain_cancelled_of_phase_none profiles pc none pr false setDef recentFlag
        recentMap pick loginOk sdOk hne
        (selectPhase_none_of_cascade _ pc none pr pick
          (cascadeSelect_cancel_account _ pc pr c pick hc hpick))
    · rintro ⟨hc, ha, hpr, hpick⟩
      subst hpr
      exact runMain_cancelled_of_phase_none profiles pc pa none false setDef recentFlag
        recentMap pick loginOk sdOk hne
        (selectPhase_none_of_cascade _ pc pa none pick
          (cascadeSelect_cancel_role _ pc pa c a pick hc ha hpick))
  · intro hne hpick
    exact runMain_cancelled_of_phase_none profiles pc pa pr true setDef recentFlag
      recentMap pick loginOk sdOk hne
      (selectPhase_none_unified _ pc pa pr pick hpick)

/-- Picker oracle that interactively answers the client step with "acme" and
cancels every other step. -/
def pickClientThenCancel : List Char → List (List Char) → Option (List Char) :=
  fun prompt _ =>
    if prompt = "Select Client".toList then some "acme".toList else none

/-- Witness for `cancellation_clean_spec`: with a picker that chooses client
"acme" interactively and then cancels at the account step, the run ends in
the cancellation outcome with no actions and exit code 0 (via both the first
and second conjuncts); the unified-mode conjunct is exercised with an
always-cancelling picker. -/
theorem cancellation_clean_spec_witness :
    ((runMain [demoP1, demoP2] none none none false false false false []
        pickClientThenCancel true true).1 = .cancelled ∧
      (runMain [demoP1, demoP2] none none none false false false false []
        pickClientThenCancel true true).2 = [] ∧
      exitCode (runMain [demoP1, demoP2] none none none false false false false []
        pickClientThenCancel true true).1 = 0) ∧
    (pickClientThenCancel "Select Client".toList
        (uniqueClients (displayProfiles [demoP1, demoP2] false [])) =
          some "acme".toList ∧
      pickClientThenCancel "Select Account".toList
        (uniqueAccounts (displayProfiles [demoP1, demoP2] false []) "acme".toList) =
          none ∧
      runMain [demoP1, demoP2] none none none false false false false []
        pickClientThenCancel true true = (.cancelled, [])) ∧
    runMain [demoP1, demoP2] none none none true false false false []
        (fun _ _ => none) true true = (.cancelled, []) :=
  ⟨⟨by decide,
    ((cancellation_clean_spec [demoP1, demoP2] none none none false false false false []
      pickClientThenCancel true true).1 (by decide)).1,
    ((cancellation_clean_spec [demoP1, demoP2] none none none false false false false []
      pickClientThenCancel true true).1 (by decide)).2⟩,
   ⟨by decide, by decide,
    ((cancellation_clean_spec [demoP1, demoP2] none none none false false false false []
      pickClientThenCancel true true).2.1 (by decide) "acme".toList []).2.1
      ⟨Or.inr ⟨rfl, by decide⟩, rfl, by decide⟩⟩,
   (cancellation_clean_spec [demoP1, demoP2] none none none true false false false []
      (fun _ _ => none) true true).2.2 (by decide) rfl⟩

/-- C4 counterexample: the loaded profile set is non-empty but the preset
client "zzz" matches no profile, so the account candidate set offered to the
picker is empty; the picker can then only report no choice (`none`), and the
run terminates through the clean cancellation path with exit code 0 — not,
as the claim requires, through the "Selection incomplete" outcome with a
non-zero exit. -/
theorem selectionIncomplete_counterexample :
    uniqueAccounts [demoP1] "zzz".toList = [] ∧
    runMain [demoP1] (some "zzz".toList) none none false false false false []
      (fun _ _ => none) true true = (.cancelled, []) ∧
    exitCode .cancelled = 0 ∧
    (Outcome.cancelled ≠ .selectionIncomplete ∧ exitCode .selectionIncomplete ≠ 0) := by
  decide

/-- C4 amended: the "Selection incomplete" outcome (the `exit(1)` branch at
`src/main.rs` lines 389-392) is unreachable: in both modes every run either
stops before selection, is cancelled cleanly, or reaches resolution with all
three slots filled; in particular an empty candidate set leads to the picker
returning no choice and hence to the clean exit-0 cancellation path. -/
theorem selectionIncomplete_unreachable (profiles : List Profile)
    (pc pa pr : Option (List Char)) (unified setDef listFlag recentFlag : Bool)
    (recentMap : List (List Char × Nat))
    (pick : List Char → List (List Char) → Option (List Char)) (loginOk sdOk : Bool) :
    (runMain profiles pc pa pr unified setDef listFlag recentFlag recentMap pick
      loginOk sdOk).1 ≠ .selectionIncomplete := by
  rcases runMain_cases profiles pc pa pr unified setDef listFlag recentFlag recentMap
      pick loginOk sdOk with h | h | h | ⟨c, a, r, h⟩
  · rw [h]; intro hf; exact Outcome.noConfusion hf
  · rw [h]; intro hf; exact Outcome.noConfusion hf
  · rw [h]; intro hf; exact Outcome.noConfusion hf
  · rcases resolveAndAct_some_shape (displayProfiles profiles recentFlag recentMap)
        c a r setDef loginOk sdOk with h2 | ⟨p, _, h2⟩ | ⟨p, _, _, h2⟩ | ⟨p, _, _, h2⟩ <;>
      (rw [h, h2]; intro hf; exact Outcome.noConfusion hf)

/-- C9: recency is recorded exactly when the primary action succeeded: a
recency record appears in the performed actions precisely when an
authenticate action for the same profile name was performed and the login
reported success; a failed login yields a non-zero exit with no recency
record; and the result of the subsequent set-default step (`sdOk`) has no
influence whatsoever on the run's outcome or actions. -/
theorem recency_iff_login_spec (profiles : List Profile) (pc pa pr : Option (List Char))
    (unified setDef listFlag recentFlag : Bool) (recentMap : List (List Char × Nat))
    (pick : List Char → List (List Char) → Option (List Char)) (loginOk sdOk : Bool) :
    (∀ n, Effect.recordRecency n ∈ (runMain profiles pc pa pr unified setDef listFlag
        recentFlag recentMap pick loginOk sdOk).2 ↔
      (Effect.authenticate n ∈ (runMain profiles pc pa pr unified setDef listFlag
        recentFlag recentMap pick loginOk sdOk).2 ∧ loginOk = true)) ∧
    ((runMain profiles pc pa pr unified setDef listFlag recentFlag recentMap pick
        loginOk sdOk).1 = .loginFailed →
      exitCode (runMain profiles pc pa pr unified setDef listFlag recentFlag recentMap
        pick loginOk sdOk).1 ≠ 0 ∧
      ∀ n, Effect.recordRecency n ∉ (runMain profiles pc pa pr unified setDef listFlag
        recentFlag recentMap pick loginOk sdOk).2) ∧
    runMain profiles pc pa pr unified setDef listFlag recentFlag recentMap pick
        loginOk true =
      runMain profiles pc pa pr unified setDef listFlag recentFlag recentMap pick
        loginOk false := by
  refine ⟨?_, ?_, rfl⟩
  · rcases runMain_cases profiles pc pa pr unified setDef listFlag recentFlag recentMap
        pick loginOk sdOk with h | h | h | ⟨c, a, r, h⟩
    · rw [h]; intro n; simp
    · rw [h]; intro n; simp
    · rw [h]; intro n; simp
    · rcases resolveAndAct_some_shape (displayProfiles profiles recentFlag recentMap)
          c a r setDef loginOk sdOk with h2 | ⟨p, hl, h2⟩ | ⟨p, hl, hs, h2⟩ | ⟨p, hl, hs, h2⟩
      · rw [h, h2]; intro n; simp
      · rw [h, h2]; intro n; subst hl; simp
      · rw [h, h2]; intro n; subst hl; simp
      · rw [h, h2]; intro n; subst hl; simp
  · rcases runMain_cases profiles pc pa pr unified setDef listFlag recentFlag recentMap
        pick loginOk sdOk with h | h | h | ⟨c, a, r, h⟩
    · rw [h]; intro hf; exact absurd hf (Outcome.noConfusion)
    · rw [h]; intro hf; exact absurd hf (Outcome.noConfusion)
    · rw [h]; intro hf; exact absurd hf (Outcome.noConfusion)
    · rcases resolveAndAct_some_shape (displayProfiles profiles recentFlag recentMap)
          c a r setDef loginOk sdOk with h2 | ⟨p, hl, h2⟩ | ⟨p, hl, hs, h2⟩ | ⟨p, hl, hs, h2⟩
      · rw [h, h2]; intro hf; exact absurd hf (Outcome.noConfusion)
      · rw [h, h2]; intro hf
        refine ⟨by simp [exitCode], ?_⟩
        intro n
        simp
      · rw [h, h2]; intro hf; exact absurd hf (Outcome.noConfusion)
      · rw [h, h2]; intro hf; exact absurd hf (Outcome.noConfusion)

/-- Witness for `recency_iff_login_spec`: resolving demo profile
acme-dev-admin with a failing login gives the login-failed outcome, non-zero
exit and no recency record; with a succeeding login the recency record for
the resolved profile's name is among the performed actions even with a
failing set-default step. -/
theorem recency_iff_login_spec_witness :
    (runMain [demoP1] (some "acme".toList) (some "dev".toList) (some "admin".toList)
        false true false false [] (fun _ _ => none) false true).1 = .loginFailed ∧
    exitCode (runMain [demoP1] (some "acme".toList) (some "dev".toList)
        (some "admin".toList) false true false false [] (fun _ _ => none)
        false true).1 ≠ 0 ∧
    Effect.recordRecency demoP1.name ∉ (runMain [demoP1] (some "acme".toList)
        (some "dev".toList) (some "admin".toList) false true false false []
        (fun _ _ => none) false true).2 ∧
    Effect.recordRecency demoP1.name ∈ (runMain [demoP1] (some "acme".toList)
        (some "dev".toList) (some "admin".toList) false true false false []
        (fun _ _ => none) true false).2 :=
  ⟨by decide,
    ((recency_iff_login_spec [demoP1] (some "acme".toList) (some "dev".toList)
      (some "admin".toList) false true false false [] (fun _ _ => none) false true).2.1
      (by decide)).1,
    ((recency_iff_login_spec [demoP1] (some "acme".toList) (some "dev".toList)
      (some "admin".toList) false true false false [] (fun _ _ => none) false true).2.1
      (by decide)).2 demoP1.name,
    ((recency_iff_login_spec [demoP1] (some "acme".toList) (some "dev".toList)
      (some "admin".toList) false true false false [] (fun _ _ => none) true false).1
      demoP1.name).mpr ⟨by decide, rfl⟩⟩

theorem splitOnChar_append_sep (sep : Char) (xs ys : List Char) (h : sep ∉ xs) :
    splitOnChar sep (xs ++ sep :: ys) = xs :: splitOnChar sep ys := by
  induction xs with
  | nil =>
    rw [List.nil_append]
    conv_lhs => rw [splitOnChar]
    cases hs : splitOnChar sep ys with
    | nil => exact absurd hs (splitOnChar_ne_nil sep ys)
    | cons hd tl => simp
  | cons x xs ih =>
    have hx : x ≠ sep := by
      intro heq
      exact h (heq ▸ List.mem_cons_self x xs)
    have hxs : sep ∉ xs := fun hm => h (List.mem_cons_of_mem x hm)
    rw [List.cons_append]
    conv_lhs => rw [splitOnChar]
    rw [ih hxs]
    simp [hx]

theorem trimChars_cons_ws (c : Char) (l : List Char) (hc : isWsChar c = true) :
    trimChars (c :: l) = trimChars l := by
  unfold trimChars
  rw [List.dropWhile_cons, if_pos hc]

theorem trimChars_append_ws (l : List Char) (c : Char) (hc : isWsChar c = true) :
    trimChars (l ++ [c]) = trimChars l := by
  unfold trimChars
  rw [List.dropWhile_append]
  by_cases h : (List.dropWhile isWsChar l).isEmpty
  · rw [if_pos h]
    have h2 : List.dropWhile isWsChar l = [] := by
      cases hd : List.dropWhile isWsChar l with
      | nil => rfl
      | cons a as => rw [hd] at h; simp at h
    rw [h2]
    rw [show List.dropWhile isWsChar [c] = [] by
      rw [List.dropWhile_cons, if_pos hc]; rfl]
  · rw [if_neg h, List.reverse_append]
    simp only [List.reverse_cons, List.reverse_nil, List.nil_append, List.singleton_append]
    rw [List.dropWhile_cons, if_pos hc]

theorem formatRow_eq (p : Profile) :
    formatRow p = (p.client ++ [' ']) ++ '|' :: ((' ' :: (p.account ++ [' '])) ++ '|' ::
      ((' ' :: (p.role ++ [' '])) ++ '|' :: (' ' :: p.name))) := by
  have hs : " | ".toList = [' ', '|', ' '] := rfl
  simp [formatRow, hs, List.append_assoc]

theorem decomposeRow_formatRow (p : Profile)
    (hc : '|' ∉ p.client) (ha : '|' ∉ p.account) (hr : '|' ∉ p.role)
    (tc : trimChars p.client = p.client) (ta : trimChars p.account = p.account)
    (tr : trimChars p.role = p.role) :
    decomposeRow (formatRow p) = (p.client, p.account, p.role) := by
  have h1 : '|' ∉ p.client ++ [' '] := by
    intro hm
    rcases List.mem_append.mp hm with hm | hm
    · exact hc hm
    · simp at hm
  have h2 : '|' ∉ ' ' :: (p.account ++ [' ']) := by
    intro hm
    rcases List.mem_cons.mp hm with hm | hm
    · exact absurd hm (by decide)
    · rcases List.mem_append.mp hm with hm | hm
      · exact ha hm
      · simp at hm
  have h3 : '|' ∉ ' ' :: (p.role ++ [' ']) := by
    intro hm
    rcases List.mem_cons.mp hm with hm | hm
    · exact absurd hm (by decide)
    · rcases List.mem_append.mp hm with hm | hm
      · exact hr hm
      · simp at hm
  unfold decomposeRow
  rw [formatRow_eq, splitOnChar_append_sep '|' _ _ h1, splitOnChar_append_sep '|' _ _ h2,
    splitOnChar_append_sep '|' _ _ h3]
  show (trimChars (p.client ++ [' ']), trimChars (' ' :: (p.account ++ [' '])),
      trimChars (' ' :: (p.role ++ [' ']))) = (p.client, p.account, p.role)
  rw [trimChars_append_ws _ ' ' (by decide), tc]
  rw [trimChars_cons_ws ' ' _ (by decide), trimChars_append_ws _ ' ' (by decide), ta]
  rw [trimChars_cons_ws ' ' _ (by decide), trimChars_append_ws _ ' ' (by decide), tr]

/-- C8 amended: for a profile whose client, account and role contain no
delimiter character `'|'` and carry no leading or trailing whitespace,
decomposing the formatted unified row recovers exactly the original
(client, account, role) triple, and hence resolution of the decomposed
triple agrees with resolution of the original triple over any profile
list (so the picked row resolves to the same profile as cascading mode). -/
theorem unified_roundtrip (p : Profile) (ps : List Profile)
    (hc : '|' ∉ p.client) (ha : '|' ∉ p.account) (hr : '|' ∉ p.role)
    (tc : trimChars p.client = p.client) (ta : trimChars p.account = p.account)
    (tr : trimChars p.role = p.role) :
    decomposeRow (formatRow p) = (p.client, p.account, p.role) ∧
    ps.find? (fun q => decide (q.client = (decomposeRow (formatRow p)).1) &&
        decide (q.account = (decomposeRow (formatRow p)).2.1) &&
        decide (q.role = (decomposeRow (formatRow p)).2.2)) =
      ps.find? (fun q => decide (q.client = p.client) &&
        decide (q.account = p.account) && decide (q.role = p.role)) := by
  have h := decomposeRow_formatRow p hc ha hr tc ta tr
  refine ⟨h, ?_⟩
  rw [h]

/-- Witness for `unified_roundtrip` at the demo profile acme-dev-admin,
whose row is "acme | dev | admin | acme-dev-admin". -/
theorem unified_roundtrip_witness :
    ('|' ∉ demoP1.client ∧ trimChars demoP1.client = demoP1.client) ∧
    formatRow demoP1 = "acme | dev | admin | acme-dev-admin".toList ∧
    decomposeRow (formatRow demoP1) = (demoP1.client, demoP1.account, demoP1.role) :=
  ⟨⟨by decide, by decide⟩, by decide,
    (unified_roundtrip demoP1 [demoP1] (by decide) (by decide) (by decide)
      (by decide) (by decide) (by decide)).1⟩

/-- Loadable profile (section name "x -y-z") whose client field carries a
trailing space. -/
def oddProfile : Profile :=
  { client := "x ".toList, account := "y".toList, role := "z".toList,
    name := "x -y-z".toList }

/-- C8 counterexample: the loadable profile with section name "x -y-z" has
client "x " (trailing space); decomposing its formatted unified row trims
that space, so the recovered triple differs from the profile's own triple,
and picking the profile's row in unified mode resolves to no profile at all
while cascading mode with the original triple resolves to the profile. -/
theorem unified_roundtrip_counterexample :
    parseProfileName "x -y-z".toList = some oddProfile ∧
    decomposeRow (formatRow oddProfile) = ("x".toList, "y".toList, "z".toList) ∧
    decomposeRow (formatRow oddProfile) ≠
      (oddProfile.client, oddProfile.account, oddProfile.role) ∧
    runMain [oddProfile] none none none true false false false []
        (fun _ _ => some (formatRow oddProfile)) true true = (.noMatchingProfile, []) ∧
    runMain [oddProfile] (some oddProfile.client) (some oddProfile.account)
        (some oddProfile.role) false false false false [] (fun _ _ => none) true true =
      (.success, [Effect.authenticate oddProfile.name,
        Effect.recordRecency oddProfile.name]) := by
  decide

/-- One section of the AWS config INI file as iterated by the ini crate:
the section identifier (`none` for the global section) and its key/value
properties. -/
structure IniSection where
  name : Option (List Char)
  props : List (List Char × List Char)
deriving DecidableEq, Repr

/-- Embeds property lookup (`Properties::get` / `contains_key` + indexing):
the first value stored under the key. -/
def propGet (props : List (List Char × List Char)) (key : List Char) :
    Option (List Char) :=
  (props.find? (fun kv => decide (kv.1 = key))).map Prod.snd

/-- Embeds `Ini::section(Some(name))`: the properties of the first section
with the given identifier. -/
def iniSection (ini : List IniSection) (name : List Char) :
    Option (List (List Char × List Char)) :=
  (ini.find? (fun s => decide (s.name = some name))).map IniSection.props

/-- Section-identifier marker for profile sections. -/
def profileMarker : List Char := "profile ".toList

/-- Section-identifier marker for sso-session sections. -/
def ssoSessionMarker : List Char := "sso-session ".toList

/-- Property key `sso_session`. -/
def key_sso_session : List Char := "sso_session".toList

/-- Property key `sso_account_id`. -/
def key_sso_account_id : List Char := "sso_account_id".toList

/-- Property key `sso_role_name`. -/
def key_sso_role_name : List Char := "sso_role_name".toList

/-- Property key `sso_start_url`. -/
def key_sso_start_url : List Char := "sso_start_url".toList

/-- The `Profile` struct of `src/profile.rs` (with resolved SSO metadata). -/
structure FullProfile where
  name : List Char
  client : List Char
  account : List Char
  role : List Char
  sso_account_id : List Char
  sso_role_name : List Char
  sso_start_url : List Char
deriving DecidableEq, Repr

/-- Embeds `parse_profile` of `src/profile.rs` (lines 37-65): reject when the
name splits into fewer than 3 components or any of the three required keys is
absent (the source's `contains_key` guards plus the subsequent indexing are
one Option match); then resolve the referenced sso-session section and its
start URL, failing (`?` operators) if either is absent. -/
def parse_profile (name : List Char) (properties : List (List Char × List Char))
    (ini : List IniSection) : Option FullProfile :=
  if (splitOnChar '-' name).length < 3 then none
  else
    match propGet properties key_sso_session, propGet properties key_sso_account_id,
        propGet properties key_sso_role_name with
    | some sess, some accId, some roleNm =>
      (iniSection ini (ssoSessionMarker ++ sess)).bind (fun sessSec =>
        (propGet sessSec key_sso_start_url).map (fun url =>
          { name := name, client := (splitOnChar '-' name).getD 0 [],
            account := (splitOnChar '-' name).getD 1 [],
            role := joinWithChar '-' ((splitOnChar '-' name).drop 2),
            sso_account_id := accId, sso_role_name := roleNm,
            sso_start_url := url }))
    | _, _, _ => none

/-- Per-section step of `load_profiles` in `src/profile.rs`: a named section
whose identifier starts with the "profile " marker is parsed with the rest of
the identifier as the profile name; anything else contributes nothing. -/
def loadStep (ini : List IniSection) (sec : IniSection) : Option FullProfile :=
  match sec.name with
  | none => none
  | some sname =>
    if sname.take profileMarker.length = profileMarker then
      parse_profile (sname.drop profileMarker.length) sec.props ini
    else none

/-- Embeds `load_profiles` of `src/profile.rs` (lines 17-35): iterate all
sections, keeping the successfully parsed profiles and skipping the rest. -/
def load_profiles (ini : List IniSection) : List FullProfile :=
  ini.filterMap (loadStep ini)

theorem profileMarker_ne_sessionMarker (n q : List Char) :
    profileMarker ++ n ≠ ssoSessionMarker ++ q := by
  intro h
  rw [show profileMarker = 'p' :: "rofile ".toList from rfl,
    show ssoSessionMarker = 's' :: "so-session ".toList from rfl,
    List.cons_append, List.cons_append] at h
  injection h with h1 h2
  exact absurd h1 (by decide)

theorem find?_session_erase (pre post : List IniSection) (sec : IniSection)
    (n q : List Char) (hname : sec.name = some (profileMarker ++ n)) :
    (pre ++ sec :: post).find? (fun s => decide (s.name = some (ssoSessionMarker ++ q))) =
    (pre ++ post).find? (fun s => decide (s.name = some (ssoSessionMarker ++ q))) := by
  have hfalse : decide (sec.name = some (ssoSessionMarker ++ q)) = false := by
    apply decide_eq_false
    rw [hname]
    intro hcontra
    exact profileMarker_ne_sessionMarker n q (Option.some_injective _ hcontra)
  induction pre with
  | nil =>
    simp only [List.nil_append]
    rw [List.find?_cons, hfalse]
  | cons s pre ih =>
    simp only [List.cons_append]
    rw [List.find?_cons, List.find?_cons]
    cases decide (s.name = some (ssoSessionMarker ++ q)) with
    | true => rfl
    | false => exact ih

theorem iniSection_erase (pre post : List IniSection) (sec : IniSection)
    (n q : List Char) (hname : sec.name = some (profileMarker ++ n)) :
    iniSection (pre ++ sec :: post) (ssoSessionMarker ++ q) =
      iniSection (pre ++ post) (ssoSessionMarker ++ q) := by
  unfold iniSection
  rw [find?_session_erase pre post sec n q hname]

theorem parse_profile_ini_congr (name : List Char)
    (properties : List (List Char × List Char)) (ini1 ini2 : List IniSection)
    (h : ∀ q : List Char, iniSection ini1 (ssoSessionMarker ++ q) =
      iniSection ini2 (ssoSessionMarker ++ q)) :
    parse_profile name properties ini1 = parse_profile name properties ini2 := by
  unfold parse_profile
  split
  · rfl
  · split
    · rename_i c a r h1 h2 h3
      rw [h c]
    · rfl

theorem loadStep_congr (ini1 ini2 : List IniSection)
    (h : ∀ q : List Char, iniSection ini1 (ssoSessionMarker ++ q) =
      iniSection ini2 (ssoSessionMarker ++ q)) (sec : IniSection) :
    loadStep ini1 sec = loadStep ini2 sec := by
  unfold loadStep
  cases sec.name with
  | none => rfl
  | some sname =>
    dsimp only
    split
    · exact parse_profile_ini_congr _ _ ini1 ini2 h
    · rfl

theorem parse_profile_none_of_missing (name : List Char)
    (props : List (List Char × List Char)) (ini : List IniSection)
    (hb : propGet props key_sso_session = none ∨
      propGet props key_sso_account_id = none ∨
      propGet props key_sso_role_name = none) :
    parse_profile name props ini = none := by
  unfold parse_profile
  split
  · rfl
  · split
    · rename_i c a r h1 h2 h3
      rcases hb with hb | hb | hb
      · rw [hb] at h1; exact Option.noConfusion h1
      · rw [hb] at h2; exact Option.noConfusion h2
      · rw [hb] at h3; exact Option.noConfusion h3
    · rfl

theorem parse_profile_none_of_session (name : List Char)
    (props : List (List Char × List Char)) (ini : List IniSection)
    (hb : ∃ sess, propGet props key_sso_session = some sess ∧
      (iniSection ini (ssoSessionMarker ++ sess) = none ∨
       ∃ sessSec, iniSection ini (ssoSessionMarker ++ sess) = some sessSec ∧
         propGet sessSec key_sso_start_url = none)) :
    parse_profile name props ini = none := by
  obtain ⟨sess, hs, hrest⟩ := hb
  unfold parse_profile
  split
  · rfl
  · split
    · rename_i c a r h1 h2 h3
      rw [hs] at h1
      injection h1 with hcs
      subst hcs
      rcases hrest with hnone | ⟨sessSec, hsec, hurl⟩
      · rw [hnone, Option.none_bind]
      · rw [hsec, Option.some_bind, hurl, Option.map_none']
    · rfl

/-- C5: a section carrying the "profile " marker whose properties are missing
a required key (sso_session, sso_account_id, sso_role_name), or whose
referenced sso-session section is absent or lacks sso_start_url, is dropped
entirely by the load: its parse yields no record at all, and the loaded
profiles are exactly those obtained with the section removed — the remaining
well-formed profiles are still returned. -/
theorem profile_section_dropped (pre post : List IniSection) (sec : IniSection)
    (n : List Char) (hname : sec.name = some (profileMarker ++ n))
    (hbad : propGet sec.props key_sso_session = none ∨
            propGet sec.props key_sso_account_id = none ∨
            propGet sec.props key_sso_role_name = none ∨
            (∃ sess, propGet sec.props key_sso_session = some sess ∧
              iniSection (pre ++ sec :: post) (ssoSessionMarker ++ sess) = none) ∨
            (∃ sess sessSec, propGet sec.props key_sso_session = some sess ∧
              iniSection (pre ++ sec :: post) (ssoSessionMarker ++ sess) = some sessSec ∧
              propGet sessSec key_sso_start_url = none)) :
    parse_profile n sec.props (pre ++ sec :: post) = none ∧
    load_profiles (pre ++ sec :: post) = load_profiles (pre ++ post) := by
  have hparse : parse_profile n sec.props (pre ++ sec :: post) = none := by
    rcases hbad with hb | hb | hb | ⟨sess, hs, hnone⟩ | ⟨sess, sessSec, hs, hsec, hurl⟩
    · exact parse_profile_none_of_missing _ _ _ (Or.inl hb)
    · exact parse_profile_none_of_missing _ _ _ (Or.inr (Or.inl hb))
    · exact parse_profile_none_of_missing _ _ _ (Or.inr (Or.inr hb))
    · exact parse_profile_none_of_session _ _ _ ⟨sess, hs, Or.inl hnone⟩
    · exact parse_profile_none_of_session _ _ _ ⟨sess, hs, Or.inr ⟨sessSec, hsec, hurl⟩⟩
  have hsess : ∀ q, iniSection (pre ++ sec :: post) (ssoSessionMarker ++ q) =
      iniSection (pre ++ post) (ssoSessionMarker ++ q) :=
    fun q => iniSection_erase pre post sec n q hname
  have hsecnone : loadStep (pre ++ sec :: post) sec = none := by
    unfold loadStep
    rw [hname]
    dsimp only
    rw [List.take_left, if_pos rfl, List.drop_left]
    exact hparse
  refine ⟨hparse, ?_⟩
  have e1 : pre.filterMap (loadStep (pre ++ sec :: post)) =
      pre.filterMap (loadStep (pre ++ post)) :=
    List.filterMap_congr (fun x _ => loadStep_congr _ _ hsess x)
  have e2 : post.filterMap (loadStep (pre ++ sec :: post)) =
      post.filterMap (loadStep (pre ++ post)) :=
    List.filterMap_congr (fun x _ => loadStep_congr _ _ hsess x)
  unfold load_profiles
  rw [List.filterMap_append, List.filterMap_append, List.filterMap_cons, hsecnone, e1, e2]

/-- Demo sso-session section with a start URL. -/
def demoSessionSec : IniSection :=
  { name := some "sso-session example".toList,
    props := [("sso_start_url".toList, "https://example.com".toList)] }

/-- Demo profile section missing sso_account_id and sso_role_name. -/
def demoBadSec : IniSection :=
  { name := some "profile invalid-dev-admin".toList,
    props := [("sso_session".toList, "example".toList)] }

/-- Demo well-formed profile section. -/
def demoGoodSec : IniSection :=
  { name := some "profile acme-dev-admin".toList,
    props := [("sso_session".toList, "example".toList),
      ("sso_account_id".toList, "123456789012".toList),
      ("sso_role_name".toList, "AdministratorAccess".toList)] }

/-- Witness for `profile_section_dropped`: a profile section missing
sso_account_id is dropped while the well-formed profile in the same file is
still returned. -/
theorem profile_section_dropped_witness :
    demoBadSec.name = some (profileMarker ++ "invalid-dev-admin".toList) ∧
    propGet demoBadSec.props key_sso_account_id = none ∧
    load_profiles [demoSessionSec, demoBadSec, demoGoodSec] =
      load_profiles [demoSessionSec, demoGoodSec] ∧
    (load_profiles [demoSessionSec, demoBadSec, demoGoodSec]).map FullProfile.name =
      ["acme-dev-admin".toList] :=
  ⟨by decide, by decide,
    (profile_section_dropped [demoSessionSec] [demoGoodSec] demoBadSec
      "invalid-dev-admin".toList (by decide) (Or.inr (Or.inl (by decide)))).2,
    by decide⟩
